import Mathlib

/-!
Shallow embedding of the `uploadLabelbox` repository
(`upload_with_csv_check.py` and `generate_video_inventory.py`).

Files on disk are modelled by their parsed content: the ledger CSV is an
`Option (List InventoryRec)` (`none` = the file does not exist), a scanned
video path is represented by its final component (`video_path.name`), and
the external world (ffmpeg, the Labelbox client) is an oracle record.
Python dicts are association lists with Python's insertion-order update
semantics.  Side effects on the outside world are recorded as an explicit
event trace.
-/

/-- One row of the inventory CSV: `dataset_name,video_name,data_row_id,dataset_id`. -/
structure InventoryRec where
  dataset_name : String
  video_name : String
  data_row_id : String
  dataset_id : String
deriving DecidableEq, Repr

/-- The non-key fields stored under a `video_name` key by `load_video_inventory`. -/
structure RecInfo where
  dataset_name : String
  data_row_id : String
  dataset_id : String
deriving DecidableEq, Repr

def infoOfRec (r : InventoryRec) : RecInfo :=
  ⟨r.dataset_name, r.data_row_id, r.dataset_id⟩

/-- A Python dict with `String` keys: entries in insertion order. -/
abbrev Dict (β : Type) : Type := List (String × β)

/-- Python `d[k] = v`: overwrite in place if the key exists, else append. -/
def dictInsert {β : Type} (d : Dict β) (k : String) (v : β) : Dict β :=
  if d.any (fun p => p.1 == k) then
    d.map (fun p => if p.1 == k then (k, v) else p)
  else
    d ++ [(k, v)]

/-- Python `d[k]` / `k in d`, as an optional lookup. -/
def dictFind {β : Type} (d : Dict β) (k : String) : Option β :=
  (d.find? (fun p => p.1 == k)).map (fun p => p.2)

def dictKeys {β : Type} (d : Dict β) : List String := d.map (fun p => p.1)

/-- Model of `load_video_inventory`: read every row of the CSV (when the file exists)
into a dict keyed by `video_name`. -/
def load_video_inventory (file : Option (List InventoryRec)) : Dict RecInfo :=
  match file with
  | none => []
  | some rows =>
      rows.foldl (fun inv r => dictInsert inv r.video_name (infoOfRec r)) []

/-- The rows an existing ledger file holds (`[]` for a missing file). -/
def ledgerRows (file : Option (List InventoryRec)) : List InventoryRec :=
  file.getD []

/-- Model of `update_video_inventory`: read the existing rows, extend with the new
videos, rewrite the whole file.  Returns the new file content. -/
def update_video_inventory (file : Option (List InventoryRec))
    (new_videos : List InventoryRec) : List InventoryRec :=
  ledgerRows file ++ new_videos

/-- The "last occurrence in file order wins" value for a key. -/
def lastWins (rows : List InventoryRec) (k : String) : Option RecInfo :=
  rows.foldl (fun acc r => if r.video_name = k then some (infoOfRec r) else acc) none

/-! ### `pathlib` name handling

`video_path.suffix` / `.stem` on the final component, as in CPython:
`i = name.rfind('.'); return name[i:] if 0 < i < len(name) - 1 else ''`. -/

/-- Index of the last `.` in a character list, if any. -/
def rfindDot : List Char → Option Nat
  | [] => none
  | c :: cs =>
      match rfindDot cs with
      | some i => some (i + 1)
      | none => if c = '.' then some 0 else none

/-- Model of `PurePath.suffix` on a file name. -/
def pathSuffix (name : String) : String :=
  match rfindDot name.toList with
  | some i =>
      if 0 < i ∧ i < name.toList.length - 1 then String.mk (name.toList.drop i)
      else ""
  | none => ""

/-- Model of `PurePath.stem` on a file name. -/
def pathStem (name : String) : String :=
  match rfindDot name.toList with
  | some i =>
      if 0 < i ∧ i < name.toList.length - 1 then String.mk (name.toList.take i)
      else name
  | none => name

/-- Model of `str.lower()` on one character (ASCII range, which covers every string
the scripts compare against). -/
def charLower (c : Char) : Char :=
  match c with
  | 'A' => 'a' | 'B' => 'b' | 'C' => 'c' | 'D' => 'd' | 'E' => 'e' | 'F' => 'f'
  | 'G' => 'g' | 'H' => 'h' | 'I' => 'i' | 'J' => 'j' | 'K' => 'k' | 'L' => 'l'
  | 'M' => 'm' | 'N' => 'n' | 'O' => 'o' | 'P' => 'p' | 'Q' => 'q' | 'R' => 'r'
  | 'S' => 's' | 'T' => 't' | 'U' => 'u' | 'V' => 'v' | 'W' => 'w' | 'X' => 'x'
  | 'Y' => 'y' | 'Z' => 'z'
  | c => c

/-- Model of `str.lower()` on a string. -/
def strLower (s : String) : String := String.mk (s.toList.map charLower)

/-- The extension set `{'.mp4', '.mov', '.avi', '.mkv', '.wmv'}`. -/
def video_extensions : List String := [".mp4", ".mov", ".avi", ".mkv", ".wmv"]

/-- The scan filter `video_path.suffix.lower() in video_extensions`. -/
def isVideoCandidate (name : String) : Bool :=
  video_extensions.contains (strLower (pathSuffix name))

/-! ### The upload pipeline (`upload_videos_with_csv_check`) -/

/-- Outcome of the `subprocess.run` ffmpeg invocation: the return code, and
whether the converted output file exists afterwards. -/
structure TranscodeOutcome where
  returncode : Int
  outputExists : Bool
deriving DecidableEq, Repr

/-- The external world: ffmpeg, and the Labelbox dataset obtained by
`get_or_create_dataset` (only its `uid` and `create_data_row` matter). -/
structure Env where
  transcode : String → TranscodeOutcome
  upload : String → Except String String
  dataset_uid : String

/-- Observable external calls made by the loop body. -/
inductive Event where
  | transcodeCalled (video_name : String)
  | uploadCalled (video_name : String)
  | uploadOk (video_name : String) (uid : String)
deriving DecidableEq, Repr

/-- The loop state: the two counters, the `new_videos` list, and the trace of
external calls made so far. -/
structure LoopSt where
  video_count : Nat
  skipped_count : Nat
  new_videos : List InventoryRec
  events : List Event
deriving DecidableEq, Repr

/-- One iteration of `for video_path in video_folder.rglob('*')`. -/
def processVideo (env : Env) (folder_name : String) (inventory : Dict RecInfo)
    (st : LoopSt) (p : String) : LoopSt :=
  if isVideoCandidate p then
    let st1 : LoopSt := { st with video_count := st.video_count + 1 }
    let video_name := p
    match dictFind inventory video_name with
    | some _ => { st1 with skipped_count := st1.skipped_count + 1 }
    | none =>
        let st2 : LoopSt :=
          { st1 with events := st1.events ++ [Event.transcodeCalled video_name] }
        let t := env.transcode video_name
        if t.returncode ≠ 0 ∨ t.outputExists = false then st2
        else
          let st3 : LoopSt :=
            { st2 with events := st2.events ++ [Event.uploadCalled video_name] }
          match env.upload video_name with
          | Except.ok uid =>
              { st3 with
                new_videos := st3.new_videos ++
                  [⟨folder_name, video_name, uid, env.dataset_uid⟩],
                events := st3.events ++ [Event.uploadOk video_name uid] }
          | Except.error _ => st3
  else st

/-- Result of one run of `upload_videos_with_csv_check`: the printed counters,
the `new_videos` list, the event trace, and the ledger file afterwards. -/
structure RunResult where
  video_count : Nat
  skipped_count : Nat
  new_videos : List InventoryRec
  events : List Event
  ledger : Option (List InventoryRec)
deriving DecidableEq, Repr

/-- Model of `upload_videos_with_csv_check`: load the inventory, scan the folder
(`none` = the folder path does not exist, early return), process each file,
and rewrite the ledger when any upload succeeded. -/
def upload_videos_with_csv_check (env : Env) (folder_name : String)
    (folder : Option (List String)) (ledger : Option (List InventoryRec)) :
    RunResult :=
  let inventory := load_video_inventory ledger
  match folder with
  | none => ⟨0, 0, [], [], ledger⟩
  | some files =>
      let st := files.foldl (processVideo env folder_name inventory) ⟨0, 0, [], []⟩
      let ledgerAfter :=
        if st.new_videos.isEmpty then ledger
        else some (update_video_inventory ledger st.new_videos)
      ⟨st.video_count, st.skipped_count, st.new_videos, st.events, ledgerAfter⟩

/-! ### Closed form of the loop -/

/-- The ledger row one file contributes, if its whole path (candidate, not in
inventory, transcode ok, upload ok) succeeds. -/
def fileRow (env : Env) (folder_name : String) (inv : Dict RecInfo)
    (p : String) : Option InventoryRec :=
  if isVideoCandidate p then
    match dictFind inv p with
    | some _ => none
    | none =>
        let t := env.transcode p
        if t.returncode ≠ 0 ∨ t.outputExists = false then none
        else
          match env.upload p with
          | Except.ok uid => some ⟨folder_name, p, uid, env.dataset_uid⟩
          | Except.error _ => none
  else none

/-- The external calls one file triggers. -/
def fileEvents (env : Env) (inv : Dict RecInfo) (p : String) : List Event :=
  if isVideoCandidate p then
    match dictFind inv p with
    | some _ => []
    | none =>
        let t := env.transcode p
        if t.returncode ≠ 0 ∨ t.outputExists = false then [Event.transcodeCalled p]
        else
          match env.upload p with
          | Except.ok uid =>
              [Event.transcodeCalled p, Event.uploadCalled p, Event.uploadOk p uid]
          | Except.error _ => [Event.transcodeCalled p, Event.uploadCalled p]
  else []

/-- Contribution of one file to `video_count`. -/
def candScore (p : String) : Nat := if isVideoCandidate p then 1 else 0

/-- Contribution of one file to `skipped_count`. -/
def skipScore (inv : Dict RecInfo) (p : String) : Nat :=
  if isVideoCandidate p ∧ (dictFind inv p).isSome then 1 else 0

/-- The inventory row recorded for a successful `create_data_row` call. -/
def okEventRow (folder_name dataset_uid : String) : Event → Option InventoryRec
  | Event.uploadOk n uid => some ⟨folder_name, n, uid, dataset_uid⟩
  | _ => none

/-! ### The spec-modelled second upload variant -/

/-- Force a file name to a `.mp4` extension, keeping its stem. -/
def forceMp4Name (name : String) : String := pathStem name ++ ".mp4"

/-- Modelled from the spec: the second upload variant of the repository is not
among the source files; per the spec it "differs only in whether the target
filename is forced to a `.mp4` extension before dedup-key comparison".  So
this loop body is the one of `upload_videos_with_csv_check` except that the
target name is `video_path.stem + '.mp4'` instead of `video_path.name`. -/
def processVideoMp4 (env : Env) (folder_name : String) (inventory : Dict RecInfo)
    (st : LoopSt) (p : String) : LoopSt :=
  if isVideoCandidate p then
    let st1 : LoopSt := { st with video_count := st.video_count + 1 }
    let video_name := forceMp4Name p
    match dictFind inventory video_name with
    | some _ => { st1 with skipped_count := st1.skipped_count + 1 }
    | none =>
        let st2 : LoopSt :=
          { st1 with events := st1.events ++ [Event.transcodeCalled video_name] }
        let t := env.transcode video_name
        if t.returncode ≠ 0 ∨ t.outputExists = false then st2
        else
          let st3 : LoopSt :=
            { st2 with events := st2.events ++ [Event.uploadCalled video_name] }
          match env.upload video_name with
          | Except.ok uid =>
              { st3 with
                new_videos := st3.new_videos ++
                  [⟨folder_name, video_name, uid, env.dataset_uid⟩],
                events := st3.events ++ [Event.uploadOk video_name uid] }
          | Except.error _ => st3
  else st

/-! ### `generate_video_inventory.py` -/

/-- A remote data row: its `external_id` (possibly unset or empty) and `uid`. -/
structure DataRow where
  external_id : Option String
  uid : String
deriving DecidableEq, Repr

/-- A remote dataset: name, uid, and its data rows. -/
structure Dataset where
  name : String
  uid : String
  data_rows : List DataRow
deriving DecidableEq, Repr

/-- Python truthiness of an optional string (`None` and `''` are falsy). -/
def truthy (o : Option String) : Bool :=
  match o with
  | none => false
  | some s => !(s == "")

/-- Model of `generate_video_inventory`: walk every dataset and collect a row for each
data row whose `external_id` is truthy. -/
def generate_video_inventory (datasets : List Dataset) : List InventoryRec :=
  datasets.foldl (fun acc ds =>
    ds.data_rows.foldl (fun acc2 r =>
      if truthy r.external_id then
        acc2 ++ [⟨ds.name, r.external_id.getD "", r.uid, ds.uid⟩]
      else acc2) acc) []

/-- The file `generate_video_inventory` writes: nothing when no videos were
found, otherwise the collected rows. -/
def writeInventoryFile (datasets : List Dataset) : Option (List InventoryRec) :=
  let inv := generate_video_inventory datasets
  if inv.isEmpty then none else some inv

/-! ### The `__main__` blocks -/

/-- Model of the `__main__` block of `upload_with_csv_check.py`: read the three
environment values, abort when any is missing or empty, else run the
pipeline. -/
def mainUpload (env : Env) (folder_name : String) (folder : Option (List String))
    (ledger : Option (List InventoryRec))
    (labelboxApiKey videoFolderPath inventoryCsv : Option String) :
    Except String RunResult :=
  if !(truthy labelboxApiKey && truthy videoFolderPath && truthy inventoryCsv) then
    Except.error "Missing required environment variables. Please check your .env file."
  else
    Except.ok (upload_videos_with_csv_check env folder_name folder ledger)

/-- Model of the `__main__` block of `generate_video_inventory.py`: read the API key,
abort when it is missing or empty, else generate the inventory file. -/
def mainGenerate (datasets : List Dataset) (labelboxApiKey : Option String) :
    Except String (Option (List InventoryRec)) :=
  if !(truthy labelboxApiKey) then
    Except.error "LABELBOX_API_KEY not found in environment variables"
  else
    Except.ok (writeInventoryFile datasets)

/-! ### Concrete fixtures used by the witness theorems -/

/-- A test environment: transcoding fails exactly on `bad.avi`, uploading
fails exactly on `err.mov`, everything else succeeds. -/
def testEnv : Env :=
  { transcode := fun n =>
      if n == "bad.avi" then ⟨1, false⟩ else ⟨0, true⟩,
    upload := fun n =>
      if n == "err.mov" then Except.error "boom" else Except.ok ("uid-" ++ n),
    dataset_uid := "ds-1" }

/-- A one-row ledger file whose single key is `old.mp4`. -/
def testLedger : Option (List InventoryRec) :=
  some [⟨"vids", "old.mp4", "row-0", "ds-1"⟩]

/-! ### Dict lemmas -/

theorem dictFind_cons {β : Type} (p : String × β) (d : Dict β) (q : String) :
    dictFind (p :: d) q = if p.1 = q then some p.2 else dictFind d q := by
  by_cases h : p.1 = q <;> simp [dictFind, List.find?_cons, h]

theorem any_key_iff {β : Type} (d : Dict β) (k : String) :
    (d.any fun p => p.1 == k) = true ↔ k ∈ dictKeys d := by
  simp [dictKeys, List.any_eq_true]

theorem dictInsert_cons_ne {β : Type} (p : String × β) (d : Dict β) (k : String)
    (v : β) (h : p.1 ≠ k) : dictInsert (p :: d) k v = p :: dictInsert d k v := by
  have hb : (p.1 == k) = false := by simp [h]
  cases ha : d.any (fun q => q.1 == k) with
  | false => simp [dictInsert, List.any_cons, hb, ha]
  | true =>
      simp [dictInsert, List.any_cons, hb, ha]
      intro hh
      exact absurd hh h

theorem dictFind_map_replace {β : Type} (d : Dict β) (k q : String) (v : β)
    (h : q ≠ k) :
    dictFind (d.map (fun p => if p.1 = k then (k, v) else p)) q = dictFind d q := by
  have hkq : k ≠ q := fun hh => h hh.symm
  induction d with
  | nil => rfl
  | cons p d ih =>
      by_cases hp : p.1 = k
      · have hpq : p.1 ≠ q := hp ▸ hkq
        simp [List.map_cons, hp, dictFind_cons, hkq, hpq, ih]
      · simp [List.map_cons, hp, dictFind_cons, ih]

theorem dictFind_dictInsert {β : Type} (d : Dict β) (k : String) (v : β)
    (q : String) :
    dictFind (dictInsert d k v) q = if q = k then some v else dictFind d q := by
  induction d with
  | nil =>
      by_cases h : q = k
      · subst h; simp [dictInsert, dictFind_cons]
      · have hkq : k ≠ q := fun hh => h hh.symm
        simp [dictInsert, dictFind_cons, dictFind, h, hkq]
  | cons p d ih =>
      by_cases hp : p.1 = k
      · have hany : ((p :: d).any fun r => r.1 == k) = true := by
          simp [List.any_cons, hp]
        unfold dictInsert
        rw [if_pos hany]
        by_cases h : q = k
        · subst h; simp [List.map_cons, hp, dictFind_cons]
        · have hkq : k ≠ q := fun hh => h hh.symm
          have hpq : p.1 ≠ q := hp ▸ hkq
          simp [List.map_cons, hp, dictFind_cons, hkq, h, hpq,
            dictFind_map_replace d k q v h]
      · rw [dictInsert_cons_ne p d k v hp]
        by_cases h : q = k
        · subst h
          simp [dictFind_cons, hp, ih]
        · simp [dictFind_cons, ih, h]

theorem dictKeys_dictInsert {β : Type} (d : Dict β) (k : String) (v : β) :
    dictKeys (dictInsert d k v) =
      if k ∈ dictKeys d then dictKeys d else dictKeys d ++ [k] := by
  unfold dictInsert
  by_cases hk : k ∈ dictKeys d
  · rw [if_pos ((any_key_iff d k).mpr hk), if_pos hk]
    unfold dictKeys
    rw [List.map_map]
    apply List.map_congr_left
    intro p _
    by_cases hp : p.1 = k <;> simp [hp]
  · rw [if_neg (fun h => hk ((any_key_iff d k).mp h)), if_neg hk]
    simp [dictKeys]

theorem dictKeys_nodup_dictInsert {β : Type} (d : Dict β) (k : String) (v : β)
    (h : (dictKeys d).Nodup) : (dictKeys (dictInsert d k v)).Nodup := by
  rw [dictKeys_dictInsert]
  by_cases hk : k ∈ dictKeys d
  · rwa [if_pos hk]
  · rw [if_neg hk]
    simp [List.nodup_append, h, hk]

/-! ### Lemmas on `load_video_inventory` -/

theorem load_fold_find (k : String) : ∀ (rows : List InventoryRec) (d : Dict RecInfo),
    dictFind (rows.foldl (fun inv r => dictInsert inv r.video_name (infoOfRec r)) d) k =
      rows.foldl (fun acc r => if r.video_name = k then some (infoOfRec r) else acc)
        (dictFind d k) := by
  intro rows
  induction rows with
  | nil => intro d; rfl
  | cons r rs ih =>
      intro d
      simp only [List.foldl_cons, ih, dictFind_dictInsert]
      congr 1
      by_cases h : r.video_name = k
      · simp [h]
      · have hk : k ≠ r.video_name := fun hh => h hh.symm
        simp [h, hk]

theorem load_fold_keys_nodup :
    ∀ (rows : List InventoryRec) (d : Dict RecInfo), (dictKeys d).Nodup →
    (dictKeys (rows.foldl
        (fun inv r => dictInsert inv r.video_name (infoOfRec r)) d)).Nodup := by
  intro rows
  induction rows with
  | nil => intro d hd; exact hd
  | cons r rs ih =>
      intro d hd
      exact ih _ (dictKeys_nodup_dictInsert d r.video_name (infoOfRec r) hd)

theorem load_fold_length :
    ∀ (rows : List InventoryRec) (d : Dict RecInfo), (dictKeys d).Nodup →
    (rows.foldl (fun inv r => dictInsert inv r.video_name (infoOfRec r)) d).length =
      (dictKeys d ++ rows.map (fun r => r.video_name)).toFinset.card := by
  intro rows
  induction rows with
  | nil =>
      intro d hd
      rw [List.map_nil, List.append_nil, List.card_toFinset,
        List.Nodup.dedup hd]
      simp [dictKeys]
  | cons r rs ih =>
      intro d hd
      rw [List.foldl_cons,
        ih (dictInsert d r.video_name (infoOfRec r))
          (dictKeys_nodup_dictInsert d r.video_name (infoOfRec r) hd)]
      congr 1
      rw [dictKeys_dictInsert]
      by_cases hk : r.video_name ∈ dictKeys d
      · rw [if_pos hk]
        ext a
        by_cases ha : a = r.video_name
        · subst ha; simp [hk]
        · simp [ha]
      · rw [if_neg hk]
        ext a
        by_cases ha : a = r.video_name
        · subst ha; simp
        · simp [ha]

theorem load_video_inventory_find (rows : List InventoryRec) (k : String) :
    dictFind (load_video_inventory (some rows)) k = lastWins rows k :=
  load_fold_find k rows []

theorem load_video_inventory_length (rows : List InventoryRec) :
    (load_video_inventory (some rows)).length =
      (rows.map (fun r => r.video_name)).toFinset.card := by
  have h := load_fold_length rows [] (by simp [dictKeys])
  simpa [dictKeys] using h

/-! ### Closed form of the loop -/

theorem processVideo_closed (env : Env) (fn : String) (inv : Dict RecInfo)
    (st : LoopSt) (p : String) :
    processVideo env fn inv st p =
      ⟨st.video_count + candScore p, st.skipped_count + skipScore inv p,
       st.new_videos ++ (fileRow env fn inv p).toList,
       st.events ++ fileEvents env inv p⟩ := by
  unfold processVideo candScore skipScore fileRow fileEvents
  cases h : isVideoCandidate p with
  | false => simp [h]
  | true =>
      cases hf : dictFind inv p with
      | some v => simp [h, hf]
      | none =>
          by_cases ht :
              (env.transcode p).returncode ≠ 0 ∨ (env.transcode p).outputExists = false
          · simp [h, hf, ht]
          · cases hu : env.upload p with
            | ok uid => simp [h, hf, ht, hu]
            | error e => simp [h, hf, ht, hu]

theorem foldl_processVideo_closed (env : Env) (fn : String) (inv : Dict RecInfo)
    (files : List String) : ∀ st : LoopSt,
    files.foldl (processVideo env fn inv) st =
      ⟨st.video_count + (files.map candScore).sum,
       st.skipped_count + (files.map (skipScore inv)).sum,
       st.new_videos ++ files.filterMap (fileRow env fn inv),
       st.events ++ files.flatMap (fileEvents env inv)⟩ := by
  induction files with
  | nil => intro st; simp
  | cons p ps ih =>
      intro st
      simp only [List.foldl_cons, ih, processVideo_closed, List.map_cons,
        List.sum_cons, List.filterMap_cons, List.flatMap_cons, List.append_assoc]
      cases hr : fileRow env fn inv p with
      | none => simp [Nat.add_assoc, Nat.add_comm (candScore p), Nat.add_comm (skipScore inv p)]
      | some r => simp [Nat.add_assoc, Nat.add_comm (candScore p), Nat.add_comm (skipScore inv p)]

theorem run_eq (env : Env) (fn : String) (files : List String)
    (ledger : Option (List InventoryRec)) :
    upload_videos_with_csv_check env fn (some files) ledger =
      ⟨(files.map candScore).sum,
       (files.map (skipScore (load_video_inventory ledger))).sum,
       files.filterMap (fileRow env fn (load_video_inventory ledger)),
       files.flatMap (fileEvents env (load_video_inventory ledger)),
       if (files.filterMap (fileRow env fn (load_video_inventory ledger))).isEmpty
       then ledger
       else some (update_video_inventory ledger
         (files.filterMap (fileRow env fn (load_video_inventory ledger))))⟩ := by
  have h := foldl_processVideo_closed env fn (load_video_inventory ledger) files
    ⟨0, 0, [], []⟩
  simp only [upload_videos_with_csv_check]
  rw [h]
  simp

theorem mem_fileEvents_name (env : Env) (inv : Dict RecInfo) (p : String)
    (e : Event) (he : e ∈ fileEvents env inv p) :
    e = Event.transcodeCalled p ∨ e = Event.uploadCalled p ∨
      ∃ uid, e = Event.uploadOk p uid := by
  unfold fileEvents at he
  by_cases h : isVideoCandidate p
  · rw [if_pos h] at he
    cases hf : dictFind inv p with
    | some v => rw [hf] at he; simp at he
    | none =>
        rw [hf] at he
        by_cases ht :
            (env.transcode p).returncode ≠ 0 ∨ (env.transcode p).outputExists = false
        · rw [if_pos ht] at he
          simp at he
          simp [he]
        · rw [if_neg ht] at he
          cases hu : env.upload p with
          | ok uid =>
              rw [hu] at he
              simp at he
              rcases he with h1 | h1 | h1 <;> simp [h1]
          | error msg =>
              rw [hu] at he
              simp at he
              rcases he with h1 | h1 <;> simp [h1]
  · rw [if_neg h] at he
    simp at he

theorem fileEvents_of_hit (env : Env) (inv : Dict RecInfo) (p : String)
    (h : (dictFind inv p).isSome = true) : fileEvents env inv p = [] := by
  unfold fileEvents
  cases hf : dictFind inv p with
  | none => rw [hf] at h; simp at h
  | some v => by_cases hc : isVideoCandidate p <;> simp [hc, hf]

theorem fileRow_some (env : Env) (fn : String) (inv : Dict RecInfo) (p : String)
    (r : InventoryRec) (h : fileRow env fn inv p = some r) :
    r.video_name = p ∧ dictFind inv p = none := by
  unfold fileRow at h
  by_cases hc : isVideoCandidate p
  · rw [if_pos hc] at h
    cases hf : dictFind inv p with
    | some v => rw [hf] at h; simp at h
    | none =>
        rw [hf] at h
        refine ⟨?_, rfl⟩
        by_cases ht :
            (env.transcode p).returncode ≠ 0 ∨ (env.transcode p).outputExists = false
        · rw [if_pos ht] at h; simp at h
        · rw [if_neg ht] at h
          cases hu : env.upload p with
          | ok uid => rw [hu] at h; simp at h; rw [← h]
          | error msg => rw [hu] at h; simp at h
  · rw [if_neg hc] at h; simp at h

theorem fileEvents_ok_rows (env : Env) (fn : String) (inv : Dict RecInfo)
    (p : String) :
    (fileEvents env inv p).filterMap (okEventRow fn env.dataset_uid) =
      (fileRow env fn inv p).toList := by
  unfold fileEvents fileRow
  by_cases hc : isVideoCandidate p
  · rw [if_pos hc, if_pos hc]
    cases hf : dictFind inv p with
    | some v => simp
    | none =>
        by_cases ht :
            (env.transcode p).returncode ≠ 0 ∨ (env.transcode p).outputExists = false
        · simp [ht, okEventRow]
        · cases hu : env.upload p with
          | ok uid => simp [ht, hu, okEventRow]
          | error msg => simp [ht, hu, okEventRow]
  · simp [hc]

theorem flatMap_events_ok_rows (env : Env) (fn : String) (inv : Dict RecInfo) :
    ∀ files : List String,
    (files.flatMap (fileEvents env inv)).filterMap (okEventRow fn env.dataset_uid) =
      files.filterMap (fileRow env fn inv) := by
  intro files
  induction files with
  | nil => rfl
  | cons p ps ih =>
      rw [List.flatMap_cons, List.filterMap_append, ih, List.filterMap_cons,
        fileEvents_ok_rows]
      cases hr : fileRow env fn inv p <;> simp

/-- C2: in every run of `upload_videos_with_csv_check`, the ledger file
afterwards is the previous rows plus exactly one appended row per successful
`create_data_row` call (so exactly K more rows when K uploads succeed), and
each appended row carries the uploaded file's name as `video_name`, the
returned `data_row.uid` as `data_row_id` and `dataset.uid` as `dataset_id`. -/
theorem ledger_grows_by_successful_uploads (env : Env) (fn : String)
    (folder : Option (List String)) (ledger : Option (List InventoryRec)) :
    ledgerRows (upload_videos_with_csv_check env fn folder ledger).ledger =
      ledgerRows ledger ++ (upload_videos_with_csv_check env fn folder ledger).new_videos ∧
    (upload_videos_with_csv_check env fn folder ledger).new_videos =
      (upload_videos_with_csv_check env fn folder ledger).events.filterMap
        (okEventRow fn env.dataset_uid) ∧
    (ledgerRows (upload_videos_with_csv_check env fn folder ledger).ledger).length =
      (ledgerRows ledger).length +
        ((upload_videos_with_csv_check env fn folder ledger).events.filterMap
          (okEventRow fn env.dataset_uid)).length := by
  cases folder with
  | none =>
      refine ⟨by simp [upload_videos_with_csv_check], ?_, ?_⟩ <;>
        simp [upload_videos_with_csv_check]
  | some files =>
      rw [run_eq]
      have hrows : ledgerRows
          (if (files.filterMap (fileRow env fn (load_video_inventory ledger))).isEmpty
           then ledger
           else some (update_video_inventory ledger
             (files.filterMap (fileRow env fn (load_video_inventory ledger))))) =
          ledgerRows ledger ++
            files.filterMap (fileRow env fn (load_video_inventory ledger)) := by
        by_cases he : (files.filterMap (fileRow env fn (load_video_inventory ledger))).isEmpty
        · rw [if_pos he]
          rw [List.isEmpty_iff] at he
          rw [he, List.append_nil]
        · rw [if_neg he]
          rfl
      refine ⟨hrows, (flatMap_events_ok_rows env fn _ files).symm, ?_⟩
      rw [hrows, flatMap_events_ok_rows env fn _ files, List.length_append]

/-- C5: appending a list of rows to an absent ledger file and reloading it
yields the same mapping as loading those rows directly. -/
theorem write_then_reload_round_trip (rows : List InventoryRec) :
    load_video_inventory (some (update_video_inventory none rows)) =
      load_video_inventory (some rows) := by
  simp [update_video_inventory, ledgerRows]

/-- C6: `update_video_inventory` keeps every pre-existing row, in content and
relative order, as a prefix of the rewritten file, and appends exactly the
new rows after them. -/
theorem update_preserves_existing_rows (file : Option (List InventoryRec))
    (new_videos : List InventoryRec) :
    (update_video_inventory file new_videos).length =
      (ledgerRows file).length + new_videos.length ∧
    (update_video_inventory file new_videos).take (ledgerRows file).length =
      ledgerRows file ∧
    (update_video_inventory file new_videos).drop (ledgerRows file).length =
      new_videos := by
  unfold update_video_inventory
  exact ⟨List.length_append _ _, List.take_left _ _, List.drop_left _ _⟩

theorem no_events_for_hit (env : Env) (inv : Dict RecInfo) (files : List String)
    (n : String) (h : (dictFind inv n).isSome = true) (e : Event)
    (hshape : e = Event.transcodeCalled n ∨ e = Event.uploadCalled n ∨
      ∃ uid, e = Event.uploadOk n uid) :
    e ∉ files.flatMap (fileEvents env inv) := by
  intro hmem
  rw [List.mem_flatMap] at hmem
  obtain ⟨p, hp, he⟩ := hmem
  have hpn : p = n := by
    rcases mem_fileEvents_name env inv p e he with h1 | h1 | ⟨uid, h1⟩ <;>
      rcases hshape with h2 | h2 | ⟨uid2, h2⟩ <;>
        rw [h2] at h1 <;> simp_all
  subst hpn
  rw [fileEvents_of_hit env inv p h] at he
  exact absurd he (List.not_mem_nil e)

theorem no_rows_for_hit (env : Env) (fn : String) (inv : Dict RecInfo)
    (files : List String) (n : String) (h : (dictFind inv n).isSome = true) :
    ∀ r ∈ files.filterMap (fileRow env fn inv), r.video_name ≠ n := by
  intro r hr hrn
  rw [List.mem_filterMap] at hr
  obtain ⟨p, hp, hrow⟩ := hr
  obtain ⟨hname, hnone⟩ := fileRow_some env fn inv p r hrow
  rw [hname] at hrn
  subst hrn
  rw [hnone] at h
  simp at h

/-- C1: a video file found by the scan whose name is already a key of the
loaded ledger mapping triggers no transcoder invocation and no
`create_data_row` call, and contributes no entry to `new_videos`. -/
theorem ledger_hit_never_reprocessed (env : Env) (fn : String)
    (files : List String) (ledger : Option (List InventoryRec)) (n : String)
    (h : (dictFind (load_video_inventory ledger) n).isSome = true) :
    Event.transcodeCalled n ∉
      (upload_videos_with_csv_check env fn (some files) ledger).events ∧
    Event.uploadCalled n ∉
      (upload_videos_with_csv_check env fn (some files) ledger).events ∧
    (∀ uid, Event.uploadOk n uid ∉
      (upload_videos_with_csv_check env fn (some files) ledger).events) ∧
    ∀ r ∈ (upload_videos_with_csv_check env fn (some files) ledger).new_videos,
      r.video_name ≠ n := by
  rw [run_eq]
  exact ⟨no_events_for_hit env _ files n h _ (Or.inl rfl),
    no_events_for_hit env _ files n h _ (Or.inr (Or.inl rfl)),
    fun uid => no_events_for_hit env _ files n h _ (Or.inr (Or.inr ⟨uid, rfl⟩)),
    no_rows_for_hit env fn _ files n h⟩

/-- Witness for C1 at a concrete run: the ledger already holds `old.mp4`. -/
theorem ledger_hit_never_reprocessed_witness :
    Event.transcodeCalled "old.mp4" ∉
      (upload_videos_with_csv_check testEnv "vids"
        (some ["old.mp4", "new.mov"]) testLedger).events ∧
    Event.uploadCalled "old.mp4" ∉
      (upload_videos_with_csv_check testEnv "vids"
        (some ["old.mp4", "new.mov"]) testLedger).events ∧
    (∀ uid, Event.uploadOk "old.mp4" uid ∉
      (upload_videos_with_csv_check testEnv "vids"
        (some ["old.mp4", "new.mov"]) testLedger).events) ∧
    ∀ r ∈ (upload_videos_with_csv_check testEnv "vids"
        (some ["old.mp4", "new.mov"]) testLedger).new_videos,
      r.video_name ≠ "old.mp4" :=
  ledger_hit_never_reprocessed testEnv "vids" ["old.mp4", "new.mov"] testLedger
    "old.mp4" (by decide)

/-- Counterexample to C3 as stated: a ledger file with N = 2 data rows that
share one `video_name` loads to a mapping of size 1, not N. -/
theorem load_inventory_size_counterexample :
    (load_video_inventory
      (some [⟨"d", "v.mp4", "row-1", "i"⟩, ⟨"d", "v.mp4", "row-2", "i"⟩])).length
      ≠ 2 := by decide

/-- C3 (amended): loading an existing ledger file yields a mapping keyed by
`video_name` whose size is the number of distinct `video_name` values (N
exactly when the names are pairwise distinct), and whose value for every key
is the last occurrence of that key in file order. -/
theorem load_inventory_size_and_last_wins (rows : List InventoryRec) :
    (load_video_inventory (some rows)).length =
      (rows.map (fun r => r.video_name)).toFinset.card ∧
    (∀ k, dictFind (load_video_inventory (some rows)) k = lastWins rows k) ∧
    ((rows.map (fun r => r.video_name)).Nodup →
      (load_video_inventory (some rows)).length = rows.length) := by
  refine ⟨load_video_inventory_length rows,
    fun k => load_video_inventory_find rows k, fun hd => ?_⟩
  rw [load_video_inventory_length rows, List.card_toFinset, List.Nodup.dedup hd,
    List.length_map]

/-- Witness for C3 (amended) at a concrete two-row ledger with distinct
names: the mapping has size 2 and the lookups return the stored rows. -/
theorem load_inventory_size_and_last_wins_witness :
    (load_video_inventory
      (some [⟨"d", "a.mp4", "row-1", "i"⟩, ⟨"d", "b.mov", "row-2", "i"⟩])).length = 2 :=
  (load_inventory_size_and_last_wins
    [⟨"d", "a.mp4", "row-1", "i"⟩, ⟨"d", "b.mov", "row-2", "i"⟩]).2.2 (by decide)

/-- C4: a candidate file not in the ledger whose transcode fails (non-zero
exit code or missing output) is skipped: the run behaves on every output as
if the file were absent, except that it is still counted in `video_count`;
no upload is attempted for it and no ledger row is appended for it. -/
theorem transcode_failure_skips_file (env : Env) (fn : String)
    (pre post : List String) (ledger : Option (List InventoryRec)) (f : String)
    (hc : isVideoCandidate f = true)
    (hn : dictFind (load_video_inventory ledger) f = none)
    (ht : (env.transcode f).returncode ≠ 0 ∨ (env.transcode f).outputExists = false) :
    (upload_videos_with_csv_check env fn (some (pre ++ f :: post)) ledger).new_videos =
      (upload_videos_with_csv_check env fn (some (pre ++ post)) ledger).new_videos ∧
    (upload_videos_with_csv_check env fn (some (pre ++ f :: post)) ledger).ledger =
      (upload_videos_with_csv_check env fn (some (pre ++ post)) ledger).ledger ∧
    (upload_videos_with_csv_check env fn (some (pre ++ f :: post)) ledger).video_count =
      (upload_videos_with_csv_check env fn (some (pre ++ post)) ledger).video_count + 1 ∧
    (upload_videos_with_csv_check env fn (some (pre ++ f :: post)) ledger).skipped_count =
      (upload_videos_with_csv_check env fn (some (pre ++ post)) ledger).skipped_count ∧
    Event.uploadCalled f ∉
      (upload_videos_with_csv_check env fn (some (pre ++ f :: post)) ledger).events ∧
    ∀ r ∈ (upload_videos_with_csv_check env fn (some (pre ++ f :: post)) ledger).new_videos,
      r.video_name ≠ f := by
  rw [run_eq env fn (pre ++ f :: post) ledger, run_eq env fn (pre ++ post) ledger]
  have hrow : fileRow env fn (load_video_inventory ledger) f = none := by
    simp [fileRow, hc, hn, ht]
  have hev : fileEvents env (load_video_inventory ledger) f =
      [Event.transcodeCalled f] := by
    simp [fileEvents, hc, hn, ht]
  have hcand : candScore f = 1 := by simp [candScore, hc]
  have hskip : skipScore (load_video_inventory ledger) f = 0 := by
    simp [skipScore, hn]
  have hnv : (pre ++ f :: post).filterMap (fileRow env fn (load_video_inventory ledger)) =
      (pre ++ post).filterMap (fileRow env fn (load_video_inventory ledger)) := by
    simp [List.filterMap_append, List.filterMap_cons, hrow]
  refine ⟨hnv, by rw [hnv], ?_, ?_, ?_, ?_⟩
  · simp only [List.map_append, List.sum_append, List.map_cons, List.sum_cons,
      hcand]
    omega
  · simp only [List.map_append, List.sum_append, List.map_cons, List.sum_cons,
      hskip]
    omega
  · intro hmem
    rw [List.mem_flatMap] at hmem
    obtain ⟨p, hp, he⟩ := hmem
    rcases mem_fileEvents_name env (load_video_inventory ledger) p _ he
      with h1 | h1 | ⟨uid, h1⟩
    · exact Event.noConfusion h1
    · have hpf : p = f := by
        have := (Event.uploadCalled.injEq f p).mp h1
        exact this.symm
      subst hpf
      rw [hev] at he
      simp at he
    · exact Event.noConfusion h1
  · intro r hr hrn
    rw [List.mem_filterMap] at hr
    obtain ⟨p, hp, hrowp⟩ := hr
    obtain ⟨hname, _⟩ := fileRow_some env fn (load_video_inventory ledger) p r hrowp
    rw [hname] at hrn
    subst hrn
    rw [hrow] at hrowp
    exact Option.noConfusion hrowp

/-- Witness for C4 at a concrete run: `bad.avi` fails to transcode. -/
theorem transcode_failure_skips_file_witness :
    (upload_videos_with_csv_check testEnv "vids"
        (some (["new.mov"] ++ "bad.avi" :: ["x.mp4"])) testLedger).new_videos =
      (upload_videos_with_csv_check testEnv "vids"
        (some (["new.mov"] ++ ["x.mp4"])) testLedger).new_videos ∧
    (upload_videos_with_csv_check testEnv "vids"
        (some (["new.mov"] ++ "bad.avi" :: ["x.mp4"])) testLedger).ledger =
      (upload_videos_with_csv_check testEnv "vids"
        (some (["new.mov"] ++ ["x.mp4"])) testLedger).ledger ∧
    (upload_videos_with_csv_check testEnv "vids"
        (some (["new.mov"] ++ "bad.avi" :: ["x.mp4"])) testLedger).video_count =
      (upload_videos_with_csv_check testEnv "vids"
        (some (["new.mov"] ++ ["x.mp4"])) testLedger).video_count + 1 ∧
    (upload_videos_with_csv_check testEnv "vids"
        (some (["new.mov"] ++ "bad.avi" :: ["x.mp4"])) testLedger).skipped_count =
      (upload_videos_with_csv_check testEnv "vids"
        (some (["new.mov"] ++ ["x.mp4"])) testLedger).skipped_count ∧
    Event.uploadCalled "bad.avi" ∉
      (upload_videos_with_csv_check testEnv "vids"
        (some (["new.mov"] ++ "bad.avi" :: ["x.mp4"])) testLedger).events ∧
    ∀ r ∈ (upload_videos_with_csv_check testEnv "vids"
        (some (["new.mov"] ++ "bad.avi" :: ["x.mp4"])) testLedger).new_videos,
      r.video_name ≠ "bad.avi" :=
  transcode_failure_skips_file testEnv "vids" ["new.mov"] ["x.mp4"] testLedger
    "bad.avi" (by decide) (by decide) (by decide)

/-- C7: if a required environment value is absent, each `__main__` block
raises before running its pipeline: `upload_with_csv_check.py` when any of
the API key, folder path or ledger path is missing, and
`generate_video_inventory.py` when the API key is missing. -/
theorem missing_config_aborts (env : Env) (fn : String)
    (folder : Option (List String)) (ledger : Option (List InventoryRec))
    (datasets : List Dataset) (k f c : Option String)
    (h : k = none ∨ f = none ∨ c = none) :
    mainUpload env fn folder ledger k f c =
      Except.error "Missing required environment variables. Please check your .env file." ∧
    mainGenerate datasets none =
      Except.error "LABELBOX_API_KEY not found in environment variables" := by
  constructor
  · rcases h with h | h | h <;> subst h <;> simp [mainUpload, truthy]
  · simp [mainGenerate, truthy]

/-- Witness for C7: a concrete invocation with the API key unset. -/
theorem missing_config_aborts_witness :
    mainUpload testEnv "vids" (some []) testLedger none (some "p") (some "q") =
      Except.error "Missing required environment variables. Please check your .env file." ∧
    mainGenerate [] none =
      Except.error "LABELBOX_API_KEY not found in environment variables" :=
  missing_config_aborts testEnv "vids" (some []) testLedger [] none (some "p")
    (some "q") (Or.inl rfl)

/-! ### Closed form of `generate_video_inventory` -/

theorem foldl_append_if {α γ : Type} (p : α → Bool) (f : α → γ) :
    ∀ (l : List α) (acc : List γ),
    l.foldl (fun a x => if p x then a ++ [f x] else a) acc =
      acc ++ l.filterMap (fun x => if p x then some (f x) else none) := by
  intro l
  induction l with
  | nil => intro acc; simp
  | cons x xs ih =>
      intro acc
      cases h : p x <;> simp [List.foldl_cons, h, ih, List.filterMap_cons]

theorem foldl_append_flatMap {α γ : Type} (c : α → List γ) :
    ∀ (l : List α) (acc : List γ),
    l.foldl (fun a x => a ++ c x) acc = acc ++ l.flatMap c := by
  intro l
  induction l with
  | nil => intro acc; simp
  | cons x xs ih => intro acc; simp [List.foldl_cons, ih, List.flatMap_cons]

theorem generate_video_inventory_eq (datasets : List Dataset) :
    generate_video_inventory datasets =
      datasets.flatMap (fun ds => ds.data_rows.filterMap (fun dr =>
        if truthy dr.external_id then
          some ⟨ds.name, dr.external_id.getD "", dr.uid, ds.uid⟩
        else none)) := by
  unfold generate_video_inventory
  have h1 : (fun (acc : List InventoryRec) (ds : Dataset) =>
      ds.data_rows.foldl (fun acc2 r =>
        if truthy r.external_id then
          acc2 ++ [⟨ds.name, r.external_id.getD "", r.uid, ds.uid⟩]
        else acc2) acc) =
      fun (acc : List InventoryRec) (ds : Dataset) =>
        acc ++ ds.data_rows.filterMap (fun dr =>
          if truthy dr.external_id then
            some ⟨ds.name, dr.external_id.getD "", dr.uid, ds.uid⟩
          else none) := by
    funext acc ds
    exact foldl_append_if (fun r => truthy r.external_id) _ ds.data_rows acc
  rw [h1]
  exact (foldl_append_flatMap _ datasets []).trans (by simp)

theorem truthy_iff (o : Option String) :
    truthy o = true ↔ ∃ s, o = some s ∧ s ≠ "" := by
  cases o <;> simp [truthy]

/-- C9: `generate_video_inventory` collects exactly the remote data rows with
a truthy `external_id`; each collected row records the dataset name, the
`external_id` as `video_name`, the data row uid and the dataset uid. -/
theorem inventory_includes_exactly_truthy_rows (datasets : List Dataset)
    (r : InventoryRec) :
    r ∈ generate_video_inventory datasets ↔
      ∃ ds ∈ datasets, ∃ dr ∈ ds.data_rows, ∃ s,
        dr.external_id = some s ∧ s ≠ "" ∧
        r = ⟨ds.name, s, dr.uid, ds.uid⟩ := by
  rw [generate_video_inventory_eq, List.mem_flatMap]
  constructor
  · rintro ⟨ds, hds, hr⟩
    rw [List.mem_filterMap] at hr
    obtain ⟨dr, hdr, hif⟩ := hr
    by_cases h : truthy dr.external_id = true
    · rw [if_pos h] at hif
      obtain ⟨s, hs, hne⟩ := (truthy_iff dr.external_id).mp h
      refine ⟨ds, hds, dr, hdr, s, hs, hne, ?_⟩
      rw [hs] at hif
      simp at hif
      rw [← hif]
    · rw [if_neg h] at hif
      exact absurd hif (by simp)
  · rintro ⟨ds, hds, dr, hdr, s, hs, hne, hr⟩
    refine ⟨ds, hds, ?_⟩
    rw [List.mem_filterMap]
    refine ⟨dr, hdr, ?_⟩
    have ht : truthy dr.external_id = true := (truthy_iff _).mpr ⟨s, hs, hne⟩
    rw [if_pos ht, hs]
    simp [hr]

theorem contains_video_extensions (s : String) :
    video_extensions.contains s = true ↔
      s = ".mp4" ∨ s = ".mov" ∨ s = ".avi" ∨ s = ".mkv" ∨ s = ".wmv" := by
  simp [video_extensions]

/-- C10: a file is a scan candidate exactly when its suffix, lowercased, is
one of `.mp4`, `.mov`, `.avi`, `.mkv`, `.wmv`; any other file leaves the
whole run result (counters, `new_videos`, events, ledger) unchanged. -/
theorem extension_filter_case_insensitive (p : String) :
    (isVideoCandidate p = true ↔
      (strLower (pathSuffix p) = ".mp4" ∨ strLower (pathSuffix p) = ".mov" ∨
       strLower (pathSuffix p) = ".avi" ∨ strLower (pathSuffix p) = ".mkv" ∨
       strLower (pathSuffix p) = ".wmv")) ∧
    (isVideoCandidate p = false →
      ∀ (env : Env) (fn : String) (pre post : List String)
        (ledger : Option (List InventoryRec)),
        upload_videos_with_csv_check env fn (some (pre ++ p :: post)) ledger =
          upload_videos_with_csv_check env fn (some (pre ++ post)) ledger) := by
  constructor
  · rw [isVideoCandidate.eq_def]
    exact contains_video_extensions (strLower (pathSuffix p))
  · intro hnc env fn pre post ledger
    rw [run_eq, run_eq]
    have hrow : fileRow env fn (load_video_inventory ledger) p = none := by
      simp [fileRow, hnc]
    have hev : fileEvents env (load_video_inventory ledger) p = [] := by
      simp [fileEvents, hnc]
    have hcand : candScore p = 0 := by simp [candScore, hnc]
    have hskip : skipScore (load_video_inventory ledger) p = 0 := by
      simp [skipScore, hnc]
    simp [List.map_append, List.sum_append, List.filterMap_append,
      List.flatMap_append, List.filterMap_cons, List.flatMap_cons,
      hrow, hev, hcand, hskip]

/-- Witness for C10: an uppercase `.MP4` file is a candidate, and inserting
`notes.txt` into a concrete scan changes nothing in the run result. -/
theorem extension_filter_case_insensitive_witness :
    isVideoCandidate "clip.MP4" = true ∧
    upload_videos_with_csv_check testEnv "vids"
        (some (["new.mov"] ++ "notes.txt" :: [])) testLedger =
      upload_videos_with_csv_check testEnv "vids"
        (some (["new.mov"] ++ [])) testLedger :=
  ⟨(extension_filter_case_insensitive "clip.MP4").1.mpr (Or.inl (by decide)),
   (extension_filter_case_insensitive "notes.txt").2 (by decide) testEnv "vids"
     ["new.mov"] [] testLedger⟩

/-! ### C8: the `.mp4`-forcing variant -/

theorem rfindDot_append (m : List Char) (j : Nat) (hm : rfindDot m = some j) :
    ∀ l : List Char, rfindDot (l ++ m) = some (l.length + j) := by
  intro l
  induction l with
  | nil => simpa using hm
  | cons c cs ih =>
      have hstep : rfindDot (c :: (cs ++ m)) =
          match rfindDot (cs ++ m) with
          | some i => some (i + 1)
          | none => if c = '.' then some 0 else none := rfl
      rw [List.cons_append, hstep, ih, List.length_cons]
      exact congrArg some (by omega)

theorem candidate_suffix_shape (p : String) (h : isVideoCandidate p = true) :
    ∃ i, rfindDot p.toList = some i ∧ 0 < i ∧ i < p.toList.length - 1 := by
  cases hr : rfindDot p.toList with
  | none =>
      exfalso
      have hs : pathSuffix p = "" := by
        unfold pathSuffix
        simp only [hr]
      rw [isVideoCandidate.eq_def, hs] at h
      exact absurd h (by decide)
  | some i =>
      by_cases hcond : 0 < i ∧ i < p.toList.length - 1
      · exact ⟨i, rfl, hcond⟩
      · exfalso
        have hs : pathSuffix p = "" := by
          unfold pathSuffix
          simp only [hr]
          rw [if_neg hcond]
        rw [isVideoCandidate.eq_def, hs] at h
        exact absurd h (by decide)

theorem isVideoCandidate_forceMp4 (p : String) (h : isVideoCandidate p = true) :
    isVideoCandidate (forceMp4Name p) = true := by
  obtain ⟨i, hr, hpos, hlt⟩ := candidate_suffix_shape p h
  have hstem : pathStem p = String.mk (p.toList.take i) := by
    unfold pathStem
    simp only [hr]
    rw [if_pos ⟨hpos, hlt⟩]
  have hlen : (p.toList.take i).length = i := by
    rw [List.length_take]
    omega
  have hforce : (forceMp4Name p).toList = p.toList.take i ++ ['.', 'm', 'p', '4'] := by
    unfold forceMp4Name
    rw [hstem]
    rfl
  have hrf : rfindDot ((forceMp4Name p).toList) = some i := by
    rw [hforce, rfindDot_append ['.', 'm', 'p', '4'] 0 rfl (p.toList.take i), hlen]
    rfl
  have hcond : 0 < i ∧ i < ((forceMp4Name p).toList).length - 1 := by
    refine ⟨hpos, ?_⟩
    rw [hforce, List.length_append, hlen]
    simp
  have hdrop : (p.toList.take i ++ ['.', 'm', 'p', '4']).drop i = ['.', 'm', 'p', '4'] := by
    have hd := List.drop_left (p.toList.take i) ['.', 'm', 'p', '4']
    rwa [hlen] at hd
  have hsuffix : pathSuffix (forceMp4Name p) = ".mp4" := by
    unfold pathSuffix
    simp only [hrf]
    rw [if_pos hcond, hforce, hdrop]
  rw [isVideoCandidate.eq_def, hsuffix]
  decide

/-- C8: the spec-modelled second upload variant and the loop body of
`upload_videos_with_csv_check` differ only in the `.mp4` forcing of the
target filename: both ignore non-candidates, on candidates the variant
behaves exactly like the original applied to the forced name, and whenever
forcing changes nothing the two bodies agree on every input state. -/
theorem upload_variants_differ_only_in_mp4_key (env : Env) (fn : String)
    (inv : Dict RecInfo) (st : LoopSt) (p : String) :
    (isVideoCandidate p = false →
      processVideoMp4 env fn inv st p = st ∧ processVideo env fn inv st p = st) ∧
    (isVideoCandidate p = true →
      processVideoMp4 env fn inv st p =
        processVideo env fn inv st (forceMp4Name p)) ∧
    (forceMp4Name p = p →
      processVideoMp4 env fn inv st p = processVideo env fn inv st p) := by
  have hno : isVideoCandidate p = false →
      processVideoMp4 env fn inv st p = st ∧ processVideo env fn inv st p = st := by
    intro h
    exact ⟨by simp [processVideoMp4, h], by simp [processVideo, h]⟩
  have hyes : isVideoCandidate p = true →
      processVideoMp4 env fn inv st p =
        processVideo env fn inv st (forceMp4Name p) := by
    intro h
    have hforce := isVideoCandidate_forceMp4 p h
    simp [processVideoMp4, processVideo, h, hforce]
  refine ⟨hno, hyes, fun h => ?_⟩
  cases hc : isVideoCandidate p with
  | false => exact ((hno hc).1).trans ((hno hc).2).symm
  | true => rw [hyes hc, h]

/-- Witness for C8 at concrete inputs: a `.mov` file behaves like the
original body applied to its forced name, an already-`.mp4` file behaves
identically under both variants, and a non-candidate is ignored by the
variant. -/
theorem upload_variants_differ_only_in_mp4_key_witness :
    processVideoMp4 testEnv "vids" [] ⟨0, 0, [], []⟩ "clip.mov" =
      processVideo testEnv "vids" [] ⟨0, 0, [], []⟩ (forceMp4Name "clip.mov") ∧
    processVideoMp4 testEnv "vids" [] ⟨0, 0, [], []⟩ "clip.mp4" =
      processVideo testEnv "vids" [] ⟨0, 0, [], []⟩ "clip.mp4" ∧
    processVideoMp4 testEnv "vids" [] ⟨0, 0, [], []⟩ "notes.txt" = ⟨0, 0, [], []⟩ :=
  ⟨(upload_variants_differ_only_in_mp4_key testEnv "vids" [] ⟨0, 0, [], []⟩
      "clip.mov").2.1 (by decide),
   (upload_variants_differ_only_in_mp4_key testEnv "vids" [] ⟨0, 0, [], []⟩
      "clip.mp4").2.2 (by decide),
   ((upload_variants_differ_only_in_mp4_key testEnv "vids" [] ⟨0, 0, [], []⟩
      "notes.txt").1 (by decide)).1⟩
